import Mathlib

/- Shallow embedding of `src/fiszki_pdf_generator.py`: grid constants from the
configuration block (`COLUMNS = 3`, `ROWS = 3`, `CARDS_PER_PAGE = COLUMNS * ROWS`). -/
namespace Fiszki

def COLUMNS : Nat := 3

def ROWS : Nat := 3

def CARDS_PER_PAGE : Nat := COLUMNS * ROWS

/-- Embeds `pages = math.ceil(total / CARDS_PER_PAGE) if total > 0 else 1`
from `generate_pdf` (ceiling division expressed on naturals). -/
def page_count (total : Nat) : Nat :=
  if 0 < total then (total + (CARDS_PER_PAGE - 1)) / CARDS_PER_PAGE else 1

/-- The slot enumeration order of the nested loops
`for p in range(pages): for r in range(ROWS): for col in range(COLUMNS)`. -/
def slot_list (pages : Nat) : List (Nat × Nat × Nat) :=
  (List.range pages).flatMap fun p =>
    (List.range ROWS).flatMap fun r =>
      (List.range COLUMNS).map fun col => (p, r, col)

/-- One iteration of the card loop body in `generate_pdf`: when `idx < total`
the card for record `idx` is drawn at the current slot and `idx` advances;
otherwise the body is skipped (the `break` leaves `idx` unchanged, so every
later slot is skipped too, which this step function reproduces). -/
def plan_step (total : Nat) (acc : Nat × List (Nat × Nat × Nat × Nat))
    (s : Nat × Nat × Nat) : Nat × List (Nat × Nat × Nat × Nat) :=
  if acc.1 < total then (acc.1 + 1, acc.2 ++ [(acc.1, s)]) else acc

/-- The full sequence of drawn cards of `generate_pdf` for `total` records:
entries `(recordIndex, page, row, column)` in drawing order. -/
def generate_plan (total : Nat) : List (Nat × Nat × Nat × Nat) :=
  ((slot_list (page_count total)).foldl (plan_step total) (0, [])).2

/-- Specification-side recursion describing the output of the card loop. -/
def plan_aux (total : Nat) : Nat → List (Nat × Nat × Nat) → List (Nat × Nat × Nat × Nat)
  | _, [] => []
  | idx, s :: L => if idx < total then (idx, s) :: plan_aux total (idx + 1) L else []

theorem foldl_plan_step_frozen (total : Nat) (L : List (Nat × Nat × Nat))
    (idx : Nat) (out : List (Nat × Nat × Nat × Nat)) (h : ¬ idx < total) :
    L.foldl (plan_step total) (idx, out) = (idx, out) := by
  induction L with
  | nil => rfl
  | cons s L ih => simpa [plan_step, h] using ih

theorem foldl_plan_step_eq (total : Nat) (L : List (Nat × Nat × Nat)) :
    ∀ idx out, (L.foldl (plan_step total) (idx, out)).2 = out ++ plan_aux total idx L := by
  induction L with
  | nil => intro idx out; simp [plan_aux]
  | cons s L ih =>
    intro idx out
    by_cases h : idx < total
    · simp [plan_step, h, plan_aux, ih]
    · simp [foldl_plan_step_frozen total (s :: L) idx out h, plan_aux, h]

theorem plan_aux_map_fst (total : Nat) (L : List (Nat × Nat × Nat)) :
    ∀ idx, total ≤ idx + L.length →
      (plan_aux total idx L).map Prod.fst = List.range' idx (total - idx) := by
  induction L with
  | nil =>
    intro idx h
    simp only [List.length_nil, Nat.add_zero] at h
    have h0 : total - idx = 0 := by omega
    simp [plan_aux, h0]
  | cons s L ih =>
    intro idx h
    by_cases hlt : idx < total
    · have h1 : total ≤ (idx + 1) + L.length := by
        simp only [List.length_cons] at h; omega
      have h2 : total - idx = (total - (idx + 1)) + 1 := by omega
      simp [plan_aux, hlt, ih (idx + 1) h1, h2, List.range'_succ]
    · have h0 : total - idx = 0 := by omega
      simp [plan_aux, hlt, h0]

theorem page_block_length (p : Nat) :
    ((List.range ROWS).flatMap fun r =>
      (List.range COLUMNS).map fun col => (p, r, col)).length = CARDS_PER_PAGE := by
  simp [ROWS, COLUMNS, CARDS_PER_PAGE, List.range_succ]

theorem slot_list_length (pages : Nat) :
    (slot_list pages).length = CARDS_PER_PAGE * pages := by
  induction pages with
  | zero => rfl
  | succ p ih =>
    simp only [slot_list, List.range_succ, List.flatMap_append, List.length_append,
      List.flatMap_cons, List.flatMap_nil, List.append_nil] at ih ⊢
    rw [ih, page_block_length]
    ring

theorem total_le_capacity (total : Nat) : total ≤ CARDS_PER_PAGE * page_count total := by
  simp only [page_count, CARDS_PER_PAGE, COLUMNS, ROWS]
  split <;> omega

/-- Claim C1: for every record count `n ≥ 0` and the fixed 3×3 geometry, the
planner/assembler renders exactly `n` cards — one per record, in input order
(the drawn record indices are `0, 1, …, n−1` in drawing order) — and emits
exactly `max 1 ⌈n / (COLUMNS·ROWS)⌉` pages (the ceiling written as
`(n + 8) / 9` on naturals); in particular 0 records give 1 page, and 10
records give 2 pages with 9 cards on page 0 and 1 card on page 1. -/
theorem C1_plan_and_page_count :
    (∀ n : Nat, (generate_plan n).map Prod.fst = List.range n ∧
        (generate_plan n).length = n ∧
        page_count n = max 1 ((n + (CARDS_PER_PAGE - 1)) / CARDS_PER_PAGE)) ∧
    page_count 0 = 1 ∧ page_count 10 = 2 ∧ (generate_plan 10).length = 10 ∧
    ((generate_plan 10).countP fun q => q.2.1 == 0) = 9 ∧
    ((generate_plan 10).countP fun q => q.2.1 == 1) = 1 := by
  refine ⟨fun n => ?_, by decide, by decide, by decide, by decide, by decide⟩
  have hcap := total_le_capacity n
  have hlen := slot_list_length (page_count n)
  have heq := foldl_plan_step_eq n (slot_list (page_count n)) 0 []
  have hfst := plan_aux_map_fst n (slot_list (page_count n)) 0 (by omega)
  have hmap : (generate_plan n).map Prod.fst = List.range n := by
    simp only [generate_plan, heq, List.nil_append]
    simpa [List.range_eq_range'] using hfst
  refine ⟨hmap, ?_, ?_⟩
  · have hl := congrArg List.length hmap
    simpa using hl
  · simp only [page_count, CARDS_PER_PAGE, COLUMNS, ROWS]
    split <;> omega

/- Page geometry. Physical quantities (points) are modelled as exact rationals.
`mmu` is reportlab's `mm` unit (72 points per inch, 25.4 mm per inch). -/

def mmu : ℚ := 72 / 25.4

structure Geometry where
  pageW : ℚ
  pageH : ℚ
  margin : ℚ
  gap : ℚ
  columns : Nat
  rows : Nat

/-- `card_w = (page_w - 2 * MARGIN - (COLUMNS - 1) * GAP) / COLUMNS` from `generate_pdf`. -/
def card_w (g : Geometry) : ℚ :=
  (g.pageW - 2 * g.margin - ((g.columns - 1 : Nat) : ℚ) * g.gap) / (g.columns : ℚ)

/-- `card_h = (page_h - 2 * MARGIN - (ROWS - 1) * GAP) / ROWS` from `generate_pdf`. -/
def card_h (g : Geometry) : ℚ :=
  (g.pageH - 2 * g.margin - ((g.rows - 1 : Nat) : ℚ) * g.gap) / (g.rows : ℚ)

/-- `x = MARGIN + col * (card_w + GAP)` from `generate_pdf`. -/
def slot_x (g : Geometry) (col : Nat) : ℚ := g.margin + (col : ℚ) * (card_w g + g.gap)

/-- `y = MARGIN + (ROWS - 1 - r) * (card_h + GAP)` from `generate_pdf` (origin bottom-left). -/
def slot_y (g : Geometry) (r : Nat) : ℚ :=
  g.margin + ((g.rows - 1 - r : Nat) : ℚ) * (card_h g + g.gap)

/-- The concrete configuration of the source: A4 portrait
(`PAGE_SIZE = A4 = (210*mm, 297*mm)`), `MARGIN = 12*mm`, `GAP = 0*mm`, 3×3 grid. -/
def the_geometry : Geometry := ⟨210 * mmu, 297 * mmu, 12 * mmu, 0, COLUMNS, ROWS⟩

/-- Claim C2: for every slot with 0-based row `r` and column `c`, the card origin
is `x = margin + c*(card_w + gap)` and `y = margin + (rows − 1 − r)*(card_h + gap)`;
the row-to-y mapping is order-reversing — `y` is strictly decreasing in `r`, and
row 0 receives the largest `y` of the page's rows — given `card_h + gap > 0`. -/
theorem C2_slot_origin_row_reversing (g : Geometry) (r c : Nat) (hr : r < g.rows)
    (hpos : 0 < card_h g + g.gap) :
    slot_x g c = g.margin + (c : ℚ) * (card_w g + g.gap) ∧
    slot_y g r = g.margin + ((g.rows - 1 - r : Nat) : ℚ) * (card_h g + g.gap) ∧
    (∀ r2, r < r2 → r2 < g.rows → slot_y g r2 < slot_y g r) ∧
    (∀ r2, r2 < g.rows → slot_y g r2 ≤ slot_y g 0) := by
  refine ⟨rfl, rfl, ?_, ?_⟩
  · intro r2 h1 h2
    have hn : g.rows - 1 - r2 < g.rows - 1 - r := by omega
    have hc : ((g.rows - 1 - r2 : Nat) : ℚ) < ((g.rows - 1 - r : Nat) : ℚ) := by
      exact_mod_cast hn
    exact add_lt_add_left (mul_lt_mul_of_pos_right hc hpos) _
  · intro r2 _
    have hn : g.rows - 1 - r2 ≤ g.rows - 1 - 0 := by omega
    have hc : ((g.rows - 1 - r2 : Nat) : ℚ) ≤ ((g.rows - 1 - 0 : Nat) : ℚ) := by
      exact_mod_cast hn
    exact add_le_add_left (mul_le_mul_of_nonneg_right hc hpos.le) _

/-- Witness for C2 at the source's concrete A4 3×3 geometry: row 1 sits strictly
below row 0. -/
theorem card_h_pos_concrete : (0 : ℚ) < card_h the_geometry + the_geometry.gap := by
  norm_num [card_h, the_geometry, mmu, ROWS, COLUMNS]

theorem C2_witness :
    (0 : ℚ) < card_h the_geometry + the_geometry.gap ∧
    slot_y the_geometry 1 < slot_y the_geometry 0 :=
  ⟨card_h_pos_concrete,
   (C2_slot_origin_row_reversing the_geometry 0 0 (by decide) card_h_pos_concrete).2.2.1 1
     (by decide) (by decide)⟩

/- Rectangles of slots, the printable area and the gap strips, for claim C3.
These predicates are abbreviations so that concrete instances are decidable. -/

abbrev in_open_rect (x y w h px py : ℚ) : Prop :=
  x < px ∧ px < x + w ∧ y < py ∧ py < y + h

abbrev in_closed_rect (x y w h px py : ℚ) : Prop :=
  x ≤ px ∧ px ≤ x + w ∧ y ≤ py ∧ py ≤ y + h

abbrev slot_open (g : Geometry) (r c : Nat) (px py : ℚ) : Prop :=
  in_open_rect (slot_x g c) (slot_y g r) (card_w g) (card_h g) px py

abbrev slot_closed (g : Geometry) (r c : Nat) (px py : ℚ) : Prop :=
  in_closed_rect (slot_x g c) (slot_y g r) (card_w g) (card_h g) px py

abbrev in_printable (g : Geometry) (px py : ℚ) : Prop :=
  g.margin ≤ px ∧ px ≤ g.pageW - g.margin ∧ g.margin ≤ py ∧ py ≤ g.pageH - g.margin

/-- Vertical position of the row whose bottom-left cell index is `j`
(so `slot_y g r = row_y g (rows − 1 − r)`). -/
abbrev row_y (g : Geometry) (j : Nat) : ℚ := g.margin + (j : ℚ) * (card_h g + g.gap)

/-- A point lies in one of the gap strips between adjacent columns or rows. -/
abbrev in_gap_region (g : Geometry) (px py : ℚ) : Prop :=
  (∃ c : Nat, c + 1 < g.columns ∧ slot_x g c + card_w g < px ∧ px < slot_x g (c + 1)) ∨
  (∃ j : Nat, j + 1 < g.rows ∧ row_y g j + card_h g < py ∧ py < row_y g (j + 1))

/-- One-dimensional disjointness: two distinct cells of width `w` at stride
`w + gap` have disjoint open extents. -/
theorem cell_disjoint (w gap : ℚ) (hw : 0 < w) (hg : 0 ≤ gap) (a b : Nat) (hab : a < b)
    (t : ℚ) (h2 : t < (a : ℚ) * (w + gap) + w) (h3 : (b : ℚ) * (w + gap) < t) : False := by
  have hba : (a : ℚ) + 1 ≤ (b : ℚ) := by exact_mod_cast hab
  nlinarith

/-- One-dimensional coverage: every point of `[0, k*w + (k−1)*gap]` lies in a
cell `[j*(w+gap), j*(w+gap) + w]` or strictly inside a gap between two cells. -/
theorem cell_cover (w gap : ℚ) (hw : 0 < w) (hg : 0 ≤ gap) (k : Nat) (hk : 0 < k)
    (t : ℚ) (h0 : 0 ≤ t) (h1 : t ≤ (k : ℚ) * w + ((k : ℚ) - 1) * gap) :
    ∃ j : Nat, j < k ∧
      (((j : ℚ) * (w + gap) ≤ t ∧ t ≤ (j : ℚ) * (w + gap) + w) ∨
       (j + 1 < k ∧ (j : ℚ) * (w + gap) + w < t ∧ t < ((j : ℚ) + 1) * (w + gap))) := by
  set s : ℚ := w + gap with hs
  have hs0 : 0 < s := by linarith
  have hfl : (0 : ℤ) ≤ ⌊t / s⌋ := Int.floor_nonneg.mpr (div_nonneg h0 hs0.le)
  set j0 : Nat := (⌊t / s⌋).toNat with hj0def
  have hj0 : (j0 : ℚ) = ((⌊t / s⌋ : ℤ) : ℚ) := by
    rw [hj0def]
    exact_mod_cast congrArg (fun z : ℤ => (z : ℚ)) (Int.toNat_of_nonneg hfl)
  have hlow : (j0 : ℚ) * s ≤ t := by
    have h := Int.floor_le (t / s)
    rw [← hj0] at h
    calc (j0 : ℚ) * s ≤ (t / s) * s := by
          exact mul_le_mul_of_nonneg_right h hs0.le
      _ = t := div_mul_cancel₀ t (ne_of_gt hs0)
  have hhigh : t < ((j0 : ℚ) + 1) * s := by
    have h := Int.lt_floor_add_one (t / s)
    rw [← hj0] at h
    calc t = (t / s) * s := (div_mul_cancel₀ t (ne_of_gt hs0)).symm
      _ < ((j0 : ℚ) + 1) * s := by exact mul_lt_mul_of_pos_right h hs0
  by_cases hcase : j0 ≤ k - 1
  · refine ⟨j0, by omega, ?_⟩
    by_cases ht : t ≤ (j0 : ℚ) * s + w
    · exact Or.inl ⟨hlow, ht⟩
    · push_neg at ht
      have hj1 : j0 + 1 < k := by
        by_contra hcon
        have hke : k = j0 + 1 := by omega
        have hkq : (k : ℚ) = (j0 : ℚ) + 1 := by exact_mod_cast hke
        have : t ≤ (j0 : ℚ) * s + w := by
          rw [hkq] at h1
          nlinarith
        linarith
      exact Or.inr ⟨hj1, ht, hhigh⟩
  · have hj0k : k ≤ j0 := by omega
    have hj0kq : (k : ℚ) ≤ (j0 : ℚ) := by exact_mod_cast hj0k
    have h2 : (k : ℚ) * s ≤ t :=
      le_trans (mul_le_mul_of_nonneg_right hj0kq hs0.le) hlow
    have hkc : ((k - 1 : Nat) : ℚ) = (k : ℚ) - 1 := by
      have : (1 : Nat) ≤ k := hk
      push_cast [Nat.cast_sub this]
      ring
    refine ⟨k - 1, by omega, Or.inl ⟨?_, ?_⟩⟩
    · rw [hkc]
      nlinarith
    · rw [hkc]
      nlinarith

/-- The derived identity `columns * card_w + (columns − 1) * gap = pageW − 2*margin`. -/
theorem cols_card_w_identity (g : Geometry) (hc : 0 < g.columns) :
    (g.columns : ℚ) * card_w g + ((g.columns : ℚ) - 1) * g.gap = g.pageW - 2 * g.margin := by
  have hc1 : (1 : Nat) ≤ g.columns := hc
  have hcq : ((g.columns : ℚ)) ≠ 0 := by
    exact_mod_cast Nat.pos_iff_ne_zero.mp hc
  rw [card_w, Nat.cast_sub hc1]
  field_simp

/-- The derived identity `rows * card_h + (rows − 1) * gap = pageH − 2*margin`. -/
theorem rows_card_h_identity (g : Geometry) (hr : 0 < g.rows) :
    (g.rows : ℚ) * card_h g + ((g.rows : ℚ) - 1) * g.gap = g.pageH - 2 * g.margin := by
  have hr1 : (1 : Nat) ≤ g.rows := hr
  have hrq : ((g.rows : ℚ)) ≠ 0 := by
    exact_mod_cast Nat.pos_iff_ne_zero.mp hr
  rw [card_h, Nat.cast_sub hr1]
  field_simp

theorem columns_pos_of_card_w_pos (g : Geometry) (hw : 0 < card_w g) : 0 < g.columns := by
  by_contra h
  have h0 : g.columns = 0 := by omega
  rw [card_w, h0] at hw
  norm_num at hw

theorem rows_pos_of_card_h_pos (g : Geometry) (hh : 0 < card_h g) : 0 < g.rows := by
  by_contra h
  have h0 : g.rows = 0 := by omega
  rw [card_h, h0] at hh
  norm_num at hh

theorem open_cells_disjoint (w gap : ℚ) (hw : 0 < w) (hg : 0 ≤ gap) (a b : Nat) (hne : a ≠ b)
    (base t : ℚ) (ha2 : t < base + (a : ℚ) * (w + gap) + w) (hb1 : base + (b : ℚ) * (w + gap) < t)
    (ha1 : base + (a : ℚ) * (w + gap) < t) (hb2 : t < base + (b : ℚ) * (w + gap) + w) : False := by
  rcases Nat.lt_or_ge a b with h | h
  · exact cell_disjoint w gap hw hg a b h (t - base) (by linarith) (by linarith)
  · have h2 : b < a := by omega
    exact cell_disjoint w gap hw hg b a h2 (t - base) (by linarith) (by linarith)

/-- Claim C3: for every geometry with positive derived card dimensions and
`gap ≥ 0`, (i) the open rectangles of two distinct slots of a page are disjoint,
(ii) every slot rectangle lies inside the printable area
`[margin, pageW − margin] × [margin, pageH − margin]`, and (iii) every point of
the printable area lies in some slot rectangle or in a gap strip — together the
slot rectangles plus gaps exactly cover the printable area. -/
theorem C3_disjoint_and_tiling (g : Geometry)
    (hw : 0 < card_w g) (hh : 0 < card_h g) (hg : 0 ≤ g.gap) :
    (∀ r1 c1 r2 c2 : Nat, r1 < g.rows → c1 < g.columns → r2 < g.rows → c2 < g.columns →
      ¬(r1 = r2 ∧ c1 = c2) →
      ∀ px py : ℚ, slot_open g r1 c1 px py → ¬ slot_open g r2 c2 px py) ∧
    (∀ r c : Nat, r < g.rows → c < g.columns →
      ∀ px py : ℚ, slot_closed g r c px py → in_printable g px py) ∧
    (∀ px py : ℚ, in_printable g px py →
      (∃ r c : Nat, r < g.rows ∧ c < g.columns ∧ slot_closed g r c px py) ∨
      in_gap_region g px py) := by
  have hcols := columns_pos_of_card_w_pos g hw
  have hrows := rows_pos_of_card_h_pos g hh
  have hidX := cols_card_w_identity g hcols
  have hidY := rows_card_h_identity g hrows
  refine ⟨?_, ?_, ?_⟩
  · intro r1 c1 r2 c2 hr1 hc1 hr2 hc2 hne px py h1 h2
    simp only [slot_open, in_open_rect, slot_x, slot_y] at h1 h2
    obtain ⟨hx1a, hx1b, hy1a, hy1b⟩ := h1
    obtain ⟨hx2a, hx2b, hy2a, hy2b⟩ := h2
    by_cases hcc : c1 = c2
    · have hrr : r1 ≠ r2 := fun h => hne ⟨h, hcc⟩
      have hjj : g.rows - 1 - r1 ≠ g.rows - 1 - r2 := by omega
      exact open_cells_disjoint (card_h g) g.gap hh hg _ _ hjj g.margin py
        hy1b hy2a hy1a hy2b
    · exact open_cells_disjoint (card_w g) g.gap hw hg c1 c2 hcc g.margin px
        hx1b hx2a hx1a hx2b
  · intro r c hr hc px py hcl
    simp only [slot_closed, in_closed_rect, slot_x, slot_y] at hcl
    obtain ⟨hxa, hxb, hya, hyb⟩ := hcl
    have hc1 : (c : ℚ) + 1 ≤ (g.columns : ℚ) := by exact_mod_cast hc
    have hr1 : ((g.rows - 1 - r : Nat) : ℚ) + 1 ≤ (g.rows : ℚ) := by
      have h2 : (g.rows - 1 - r) + 1 ≤ g.rows := by omega
      exact_mod_cast h2
    have hcnn : (0 : ℚ) ≤ (c : ℚ) := Nat.cast_nonneg c
    have hrnn : (0 : ℚ) ≤ ((g.rows - 1 - r : Nat) : ℚ) := Nat.cast_nonneg _
    refine ⟨?_, ?_, ?_, ?_⟩
    · nlinarith [mul_nonneg hcnn (by linarith : (0 : ℚ) ≤ card_w g + g.gap)]
    · nlinarith [mul_nonneg (by linarith : (0 : ℚ) ≤ (g.columns : ℚ) - 1 - (c : ℚ))
        (by linarith : (0 : ℚ) ≤ card_w g + g.gap)]
    · nlinarith [mul_nonneg hrnn (by linarith : (0 : ℚ) ≤ card_h g + g.gap)]
    · nlinarith [mul_nonneg
        (by linarith : (0 : ℚ) ≤ (g.rows : ℚ) - 1 - ((g.rows - 1 - r : Nat) : ℚ))
        (by linarith : (0 : ℚ) ≤ card_h g + g.gap)]
  · intro px py hp
    obtain ⟨hpx1, hpx2, hpy1, hpy2⟩ := hp
    obtain ⟨cx, hcx, hxcase⟩ := cell_cover (card_w g) g.gap hw hg g.columns hcols
      (px - g.margin) (by linarith) (by linarith [hidX])
    obtain ⟨jy, hjy, hycase⟩ := cell_cover (card_h g) g.gap hh hg g.rows hrows
      (py - g.margin) (by linarith) (by linarith [hidY])
    rcases hxcase with ⟨hxl, hxr⟩ | ⟨hcx1, hxl, hxr⟩
    · rcases hycase with ⟨hyl, hyr⟩ | ⟨hjy1, hyl, hyr⟩
      · refine Or.inl ⟨g.rows - 1 - jy, cx, by omega, hcx, ?_⟩
        have hjj : g.rows - 1 - (g.rows - 1 - jy) = jy := by omega
        simp only [slot_closed, in_closed_rect, slot_x, slot_y, hjj]
        exact ⟨by linarith, by linarith, by linarith, by linarith⟩
      · refine Or.inr (Or.inr ⟨jy, hjy1, ?_, ?_⟩)
        · simp only [row_y]; linarith
        · simp only [row_y]; push_cast; linarith
    · refine Or.inr (Or.inl ⟨cx, hcx1, ?_, ?_⟩)
      · simp only [slot_x]; linarith
      · simp only [slot_x]; push_cast; linarith

theorem card_w_pos_concrete : (0 : ℚ) < card_w the_geometry := by
  norm_num [card_w, the_geometry, mmu, COLUMNS]

theorem card_h_pos0_concrete : (0 : ℚ) < card_h the_geometry := by
  norm_num [card_h, the_geometry, mmu, ROWS]

/-- Witness for C3 at the source's concrete geometry: the hypotheses hold and the
printable point `(100, 100)` is covered by a slot or a gap strip. -/
theorem C3_witness :
    (0 : ℚ) < card_w the_geometry ∧ (0 : ℚ) < card_h the_geometry ∧
    ((∃ r c : Nat, r < the_geometry.rows ∧ c < the_geometry.columns ∧
        slot_closed the_geometry r c 100 100) ∨ in_gap_region the_geometry 100 100) :=
  ⟨card_w_pos_concrete, card_h_pos0_concrete,
   (C3_disjoint_and_tiling the_geometry card_w_pos_concrete card_h_pos0_concrete
      (by norm_num [the_geometry])).2.2 100 100
     (by simp only [in_printable, the_geometry]; norm_num [mmu])⟩

/- Image pipeline. A decoded PIL raster image is modelled by its pixel
dimensions, its embedded EXIF orientation tag (1 or absent = upright), and —
for placeholder images — the background colour and the drawn label. I/O
(filesystem, HTTP, PNG re-encoding, font loading, text drawing) is modelled by
an explicit environment; a Python exception is an `Except.error`. -/

structure Img where
  width : Nat
  height : Nat
  orientation : Nat
  background : Nat × Nat × Nat
  label : Option String
deriving DecidableEq

structure Env where
  openFile : String → Except Unit Img
  pathExists : String → Bool
  httpGet : String → Except Unit Img
  truetypeOk : Bool
  loadDefaultOk : Bool
  textsizeOk : Bool
  drawTextOk : Bool
  imageSaveOk : Img → Bool

/-- `s.startswith(p)` on strings as character sequences. -/
def str_starts_with (s p : String) : Bool := p.data.isPrefixOf s.data

/-- Python slicing `s[n:]`: drop the first `n` characters. -/
def str_drop (s : String) (n : Nat) : String := ⟨s.data.drop n⟩

/-- Python `s.lower()`: lowercase character by character. -/
def str_lower (s : String) : String := ⟨s.data.map Char.toLower⟩

/-- Embeds `fetch_image(link)`: raises on an empty link, strips a `file://`
prefix and opens the rest as a path, then tries an existing plain path, then
HTTP for links whose lowercase form starts with `http`, and finally attempts to
open the link as a path anyway. -/
def fetch_image (env : Env) (link : String) : Except Unit Img :=
  if link = "" then .error ()
  else if str_starts_with link "file://" then env.openFile (str_drop link 7)
  else if env.pathExists link then env.openFile link
  else if str_starts_with (str_lower link) "http" then env.httpGet link
  else env.openFile link

/-- The sequence of fallible steps inside `make_placeholder`'s outer `try`:
obtain a font (`ImageFont.truetype`, falling back to `ImageFont.load_default`
whose own failure escapes to the outer handler), measure the text
(`draw.textsize`), then draw it (`draw.text`). -/
def placeholder_attempt (env : Env) : Except Unit Unit :=
  match (if env.truetypeOk then Except.ok () else
         if env.loadDefaultOk then Except.ok () else Except.error ()) with
  | .error e => .error e
  | .ok _ =>
    if env.textsizeOk then
      if env.drawTextOk then .ok () else .error ()
    else .error ()

/-- Embeds `make_placeholder(text)`: an 800×600 canvas filled with the neutral
colour `(240, 240, 240)`; the label is drawn centred unless any step of the
guarded block fails, in which case the bare canvas is returned (`except: pass`). -/
def make_placeholder (env : Env) (text : String) : Img :=
  match placeholder_attempt env with
  | .ok _ => ⟨800, 600, 1, (240, 240, 240), some text⟩
  | .error _ => ⟨800, 600, 1, (240, 240, 240), none⟩

/-- Embeds `ImageOps.exif_transpose`: EXIF orientations 5–8 transpose the pixel
grid (width and height swap), orientations 2–4 flip or rotate by 180° (the
dimensions are kept), and in both cases the orientation tag is removed; images
without a transposing tag are returned unchanged. -/
def exif_transpose (img : Img) : Img :=
  if img.orientation = 5 ∨ img.orientation = 6 ∨ img.orientation = 7 ∨ img.orientation = 8 then
    ⟨img.height, img.width, 1, img.background, img.label⟩
  else if img.orientation = 2 ∨ img.orientation = 3 ∨ img.orientation = 4 then
    ⟨img.width, img.height, 1, img.background, img.label⟩
  else img

/-- Pillow's `round_aspect(number, key)` from `Image.thumbnail`:
`max(min(math.floor(number), math.ceil(number), key=key), 1)` (Python's `min`
keeps the first argument on ties). -/
def round_aspect (q : ℚ) (key : Nat → ℚ) : Nat :=
  max (if key (⌊q⌋).toNat ≤ key (⌈q⌉).toNat then (⌊q⌋).toNat else (⌈q⌉).toNat) 1

/-- The size computation of Pillow's `Image.thumbnail` for an image of size
`(w, h)` and floored bounds `(mw, mh)`: return the original size when it
already fits, otherwise shrink one side to preserve the aspect ratio
`w / h` (rational arithmetic stands in for Python floats). -/
def thumbnail_size (w h mw mh : Nat) : Nat × Nat :=
  if w ≤ mw ∧ h ≤ mh then (w, h)
  else if (w : ℚ) / (h : ℚ) ≤ (mw : ℚ) / (mh : ℚ) then
    (round_aspect ((mh : ℚ) * ((w : ℚ) / (h : ℚ)))
      (fun n => |(w : ℚ) / (h : ℚ) - (n : ℚ) / (mh : ℚ)|), mh)
  else
    (mw, round_aspect ((mw : ℚ) / ((w : ℚ) / (h : ℚ)))
      (fun n => if n = 0 then 0 else |(w : ℚ) / (h : ℚ) - (mw : ℚ) / (n : ℚ)|))

/-- The display dimensions produced by `pil_image_to_reportlab`: EXIF
orientation correction first (`ImageOps.exif_transpose`), then the in-place
aspect-preserving downscale (`img.thumbnail((int(max_width), int(max_height)),
Image.LANCZOS)`). -/
def fit_dims (img : Img) (mw mh : Nat) : Nat × Nat :=
  thumbnail_size (exif_transpose img).width (exif_transpose img).height mw mh

/-- Embeds `pil_image_to_reportlab(img, max_width, max_height)` including its
fallibility (decoding/re-encoding the pixel data via `img.save` may raise for a
corrupt image, modelled by `env.imageSaveOk`). -/
def pil_image_to_reportlab (env : Env) (img : Img) (mw mh : Nat) :
    Except Unit (Img × Nat × Nat) :=
  let t := exif_transpose img
  let d := thumbnail_size t.width t.height mw mh
  let fitted : Img := ⟨d.1, d.2, 1, t.background, t.label⟩
  if env.imageSaveOk fitted then .ok (fitted, d.1, d.2) else .error ()

/-- The image-resolution step of `draw_card` (lines 184–189): fetch the
record's image, converting any failure into a placeholder that carries the
record's term text. -/
def resolve_card_image (env : Env) (link word : String) : Img :=
  match fetch_image env link with
  | .ok img => img
  | .error _ => make_placeholder env word

/-- The fitting step of `draw_card` (lines 191–195): try to fit the resolved
image; on failure generate a fresh placeholder and fit it, this second attempt
being outside any handler. The returned list records the images on which
fitting was attempted, in order. -/
def fit_with_retry (env : Env) (pil : Img) (word : String) (mw mh : Nat) :
    Except Unit (Img × Nat × Nat) × List Img :=
  match pil_image_to_reportlab env pil mw mh with
  | .ok r => (.ok r, [pil])
  | .error _ =>
    (pil_image_to_reportlab env (make_placeholder env word) mw mh,
     [pil, make_placeholder env word])

/-- Claim C10: for every locator beginning with `file://`, `fetch_image` strips
the first seven characters and opens the remainder directly as a local path —
before the plain-path existence check and before any HTTP handling, whatever
the environment answers for those. -/
theorem C10_file_scheme_shortcut (env : Env) (link : String)
    (h : str_starts_with link "file://" = true) :
    fetch_image env link = env.openFile (str_drop link 7) := by
  have hne : link ≠ "" := by
    intro he
    rw [he] at h
    exact absurd h (by decide)
  rw [fetch_image, if_neg hne, if_pos h]

/-- Witness for C10: a concrete environment and the locator
`file:///tmp/cat.png`; the resolver consults `openFile` on `/tmp/cat.png`. -/
theorem C10_witness :
    fetch_image
      ⟨fun p => .ok ⟨5, 7, 1, (0, 0, 0), some p⟩, fun _ => false, fun _ => .error (),
       true, true, true, true, fun _ => true⟩
      "file:///tmp/cat.png"
    = .ok ⟨5, 7, 1, (0, 0, 0), some "/tmp/cat.png"⟩ := by
  rw [C10_file_scheme_shortcut _ _ (by decide)]
  rfl

/-- Claim C4: for every environment, locator and term text, the
image-resolution step of the card renderer never propagates an error: either
the fetch succeeds and its image is used, or the step yields the placeholder
generated from the record's term text — the renderer always receives an image. -/
theorem C4_resolution_total (env : Env) (link word : String) :
    (∃ img, fetch_image env link = .ok img ∧ resolve_card_image env link word = img) ∨
    (fetch_image env link = .error () ∧
      resolve_card_image env link word = make_placeholder env word) := by
  rcases hf : fetch_image env link with e | img
  · cases e
    exact Or.inr ⟨rfl, by simp [resolve_card_image, hf]⟩
  · exact Or.inl ⟨img, rfl, by simp [resolve_card_image, hf]⟩

/-- Claim C6: the placeholder generator is total: for every environment and
label it returns the fixed 800×600 canvas filled with the neutral background
`(240, 240, 240)`; if text measurement, text drawing, or font loading (both the
styled font and its fallback) fails, the canvas comes back blank, without text,
instead of propagating the error; when the guarded block succeeds the label is
drawn. -/
theorem C6_placeholder_total (env : Env) (text : String) :
    (make_placeholder env text).width = 800 ∧
    (make_placeholder env text).height = 600 ∧
    (make_placeholder env text).background = (240, 240, 240) ∧
    ((env.textsizeOk = false ∨ env.drawTextOk = false ∨
        (env.truetypeOk = false ∧ env.loadDefaultOk = false)) →
      (make_placeholder env text).label = none) ∧
    ((env.truetypeOk = true ∨ env.loadDefaultOk = true) → env.textsizeOk = true →
      env.drawTextOk = true → (make_placeholder env text).label = some text) := by
  rcases env with ⟨o, p, h, tt, ld, ts, dt⟩
  cases tt <;> cases ld <;> cases ts <;> cases dt <;>
    simp [make_placeholder, placeholder_attempt]

/-- Witness for C6: in an environment whose text measurement fails, the
placeholder for label `pies` is the blank 800×600 neutral canvas. -/
theorem C6_witness :
    (make_placeholder
      ⟨fun _ => .error (), fun _ => false, fun _ => .error (),
       true, true, false, true, fun _ => true⟩ "pies").width = 800 ∧
    (make_placeholder
      ⟨fun _ => .error (), fun _ => false, fun _ => .error (),
       true, true, false, true, fun _ => true⟩ "pies").label = none := by
  refine ⟨(C6_placeholder_total _ "pies").1, (C6_placeholder_total _ "pies").2.2.2.1 ?_⟩
  exact Or.inl rfl

theorem round_aspect_le (q : ℚ) (key : Nat → ℚ) (n : Nat) (hq : q ≤ (n : ℚ)) (hn : 1 ≤ n) :
    round_aspect q key ≤ n := by
  have hc : ⌈q⌉ ≤ (n : ℤ) := Int.ceil_le.mpr (by exact_mod_cast hq)
  have hf : ⌊q⌋ ≤ ⌈q⌉ := Int.floor_le_ceil q
  rw [round_aspect]
  split <;> omega

theorem thumbnail_size_le (w h mw mh : Nat) (hw : 1 ≤ w) (hh : 1 ≤ h)
    (hmw : 1 ≤ mw) (hmh : 1 ≤ mh) :
    (thumbnail_size w h mw mh).1 ≤ mw ∧ (thumbnail_size w h mw mh).2 ≤ mh ∧
    (thumbnail_size w h mw mh).1 ≤ w ∧ (thumbnail_size w h mw mh).2 ≤ h := by
  have hwq : (0 : ℚ) < (w : ℚ) := by exact_mod_cast hw
  have hhq : (0 : ℚ) < (h : ℚ) := by exact_mod_cast hh
  have hmwq : (0 : ℚ) < (mw : ℚ) := by exact_mod_cast hmw
  have hmhq : (0 : ℚ) < (mh : ℚ) := by exact_mod_cast hmh
  by_cases hfit : w ≤ mw ∧ h ≤ mh
  · simp only [thumbnail_size, if_pos hfit]
    exact ⟨hfit.1, hfit.2, le_refl w, le_refl h⟩
  · by_cases hbr : (w : ℚ) / (h : ℚ) ≤ (mw : ℚ) / (mh : ℚ)
    · simp only [thumbnail_size, if_neg hfit, if_pos hbr]
      have hcross : (w : ℚ) * (mh : ℚ) ≤ (mw : ℚ) * (h : ℚ) :=
        (div_le_div_iff₀ hhq hmhq).mp hbr
      have hmh_h : mh ≤ h := by
        by_contra hcon
        push_neg at hcon
        have hhmh : (h : ℚ) + 1 ≤ (mh : ℚ) := by exact_mod_cast hcon
        have hwmw : w ≤ mw := by
          have h1 : (w : ℚ) * (h : ℚ) < (mw : ℚ) * (h : ℚ) := by nlinarith
          have h2 : (w : ℚ) < (mw : ℚ) := lt_of_mul_lt_mul_right h1 hhq.le
          exact_mod_cast h2.le
        exact hfit ⟨hwmw, by omega⟩
      have hq_mw : (mh : ℚ) * ((w : ℚ) / (h : ℚ)) ≤ (mw : ℚ) := by
        calc (mh : ℚ) * ((w : ℚ) / (h : ℚ))
            ≤ (mh : ℚ) * ((mw : ℚ) / (mh : ℚ)) := by
              exact mul_le_mul_of_nonneg_left hbr hmhq.le
          _ = (mw : ℚ) := by field_simp
      have hq_w : (mh : ℚ) * ((w : ℚ) / (h : ℚ)) ≤ (w : ℚ) := by
        calc (mh : ℚ) * ((w : ℚ) / (h : ℚ))
            ≤ (h : ℚ) * ((w : ℚ) / (h : ℚ)) := by
              have hcast : (mh : ℚ) ≤ (h : ℚ) := by exact_mod_cast hmh_h
              exact mul_le_mul_of_nonneg_right hcast (by positivity)
          _ = (w : ℚ) := by field_simp
      exact ⟨round_aspect_le _ _ mw hq_mw hmw, le_refl mh,
        round_aspect_le _ _ w hq_w hw, hmh_h⟩
    · simp only [thumbnail_size, if_neg hfit, if_neg hbr]
      push_neg at hbr
      have hcross : (mw : ℚ) * (h : ℚ) < (w : ℚ) * (mh : ℚ) :=
        (div_lt_div_iff₀ hmhq hhq).mp hbr
      have hmw_w : mw ≤ w := by
        by_contra hcon
        push_neg at hcon
        have hwmw : (w : ℚ) + 1 ≤ (mw : ℚ) := by exact_mod_cast hcon
        have hhmh : h ≤ mh := by
          have h1 : (h : ℚ) * (w : ℚ) < (mh : ℚ) * (w : ℚ) := by nlinarith
          have h2 : (h : ℚ) < (mh : ℚ) := lt_of_mul_lt_mul_right h1 hwq.le
          exact_mod_cast h2.le
        exact hfit ⟨by omega, hhmh⟩
      have haspect : (0 : ℚ) < (w : ℚ) / (h : ℚ) := by positivity
      have hq_eq : (mw : ℚ) / ((w : ℚ) / (h : ℚ)) = (mw : ℚ) * (h : ℚ) / (w : ℚ) := by
        field_simp
      have hq_mh : (mw : ℚ) / ((w : ℚ) / (h : ℚ)) ≤ (mh : ℚ) := by
        rw [hq_eq, div_le_iff₀ hwq]
        nlinarith
      have hq_h : (mw : ℚ) / ((w : ℚ) / (h : ℚ)) ≤ (h : ℚ) := by
        rw [hq_eq, div_le_iff₀ hwq]
        have hcast : (mw : ℚ) ≤ (w : ℚ) := by exact_mod_cast hmw_w
        nlinarith
      exact ⟨le_refl mw, round_aspect_le _ _ mh hq_mh hmh, hmw_w,
        round_aspect_le _ _ h hq_h hh⟩

/-- Claim C5: for every input image and bounds with positive dimensions, the
fitter first applies the embedded EXIF orientation correction (orientations 5–8
swap width and height), then scales only downward preserving aspect ratio: the
display dimensions never exceed the given bounds and never exceed the
orientation-corrected original dimensions — it never scales an image up. -/
theorem C5_fitter_bounds (img : Img) (mw mh : Nat)
    (hw : 1 ≤ img.width) (hh : 1 ≤ img.height) (hmw : 1 ≤ mw) (hmh : 1 ≤ mh) :
    (fit_dims img mw mh).1 ≤ mw ∧ (fit_dims img mw mh).2 ≤ mh ∧
    (fit_dims img mw mh).1 ≤ (exif_transpose img).width ∧
    (fit_dims img mw mh).2 ≤ (exif_transpose img).height ∧
    ((img.orientation = 5 ∨ img.orientation = 6 ∨ img.orientation = 7 ∨
        img.orientation = 8) →
      (exif_transpose img).width = img.height ∧
      (exif_transpose img).height = img.width) := by
  have hw2 : 1 ≤ (exif_transpose img).width := by
    rw [exif_transpose]
    split
    · exact hh
    · split
      · exact hw
      · exact hw
  have hh2 : 1 ≤ (exif_transpose img).height := by
    rw [exif_transpose]
    split
    · exact hw
    · split
      · exact hh
      · exact hh
  have hmain := thumbnail_size_le (exif_transpose img).width (exif_transpose img).height
    mw mh hw2 hh2 hmw hmh
  refine ⟨hmain.1, hmain.2.1, hmain.2.2.1, hmain.2.2.2, ?_⟩
  intro h5
  rw [exif_transpose, if_pos h5]
  exact ⟨rfl, rfl⟩

/-- Witness for C5: a 400×300 image with EXIF orientation 6 (a 90° rotation)
fitted into 100×100 bounds stays within the bounds. -/
theorem C5_witness :
    1 ≤ (⟨400, 300, 6, (0, 0, 0), none⟩ : Img).width ∧
    (fit_dims ⟨400, 300, 6, (0, 0, 0), none⟩ 100 100).1 ≤ 100 ∧
    (fit_dims ⟨400, 300, 6, (0, 0, 0), none⟩ 100 100).2 ≤ 100 :=
  ⟨by decide,
   (C5_fitter_bounds ⟨400, 300, 6, (0, 0, 0), none⟩ 100 100
      (by decide) (by decide) (by decide) (by decide)).1,
   (C5_fitter_bounds ⟨400, 300, 6, (0, 0, 0), none⟩ 100 100
      (by decide) (by decide) (by decide) (by decide)).2.1⟩

/-- Claim C7: if fitting the resolved image fails, exactly one second attempt
is made, on a freshly generated placeholder; when the first fit succeeds no
second attempt happens; and a failure while fitting the placeholder is not
caught — it propagates out of the card renderer. -/
theorem C7_fit_retry (env : Env) (pil : Img) (word : String) (mw mh : Nat) :
    (∀ r, pil_image_to_reportlab env pil mw mh = .ok r →
      fit_with_retry env pil word mw mh = (.ok r, [pil])) ∧
    (pil_image_to_reportlab env pil mw mh = .error () →
      fit_with_retry env pil word mw mh =
        (pil_image_to_reportlab env (make_placeholder env word) mw mh,
         [pil, make_placeholder env word])) ∧
    (pil_image_to_reportlab env pil mw mh = .error () →
      pil_image_to_reportlab env (make_placeholder env word) mw mh = .error () →
      (fit_with_retry env pil word mw mh).1 = .error ()) := by
  refine ⟨?_, ?_, ?_⟩
  · intro r hr
    simp [fit_with_retry, hr]
  · intro h1
    simp [fit_with_retry, h1]
  · intro h1 h2
    simp [fit_with_retry, h1, h2]

def envC7 : Env :=
  ⟨fun _ => .error (), fun _ => false, fun _ => .error (),
   true, true, true, true, fun _ => false⟩

/-- Witness for C7: in an environment where PNG re-encoding always fails, the
failure of the second (placeholder) fit propagates as an error. -/
theorem C7_witness :
    (fit_with_retry envC7 ⟨40, 40, 1, (0, 0, 0), none⟩ "kot" 50 50).1 = .error () :=
  (C7_fit_retry envC7 ⟨40, 40, 1, (0, 0, 0), none⟩ "kot" 50 50).2.2 rfl rfl

/- CSV input. A parsed row of `csv.DictReader` maps header names to cell
values; a key can be missing entirely (`None` from `dict.get`) or present with
a value (`csv.DictReader` fills short rows with `None`, modelled as a present
key holding `none`). -/

def RawRow : Type := List (String × Option String)

/-- Python `row.get(key)`: `none` when the key is absent. -/
def rget (r : RawRow) (k : String) : Option String :=
  match List.find? (fun p => p.1 == k) r with
  | some p => p.2
  | none => none

/-- Python truthiness of an optional string: `None` and `''` are falsy. -/
def truthy : Option String → Bool
  | some s => !(s == "")
  | none => false

/-- A Python `a or b or …` chain over optional strings: the first truthy
value, otherwise the value of the last operand. -/
def pyOr : List (Option String) → Option String
  | [] => none
  | [x] => x
  | x :: y :: xs => if truthy x then x else pyOr (y :: xs)

/-- The alias chain for `tekst` in `read_csv`. -/
def tekst_of (r : RawRow) : Option String :=
  pyOr [rget r "TEKST", rget r "Tekst", rget r "tekst", rget r "WORD", rget r "word"]

/-- The alias chain for `tlum` in `read_csv`. -/
def tlum_of (r : RawRow) : Option String :=
  pyOr [rget r "TŁUMACZENIE", rget r "Tlumaczenie", rget r "TŁUM",
    rget r "TLUMACZENIE", rget r "translation"]

/-- The alias chain for `link` in `read_csv`. -/
def link_of (r : RawRow) : Option String :=
  pyOr [rget r "LINK DO OBRAZKA", rget r "LINK_DO_OBRAZKA", rget r "LINK",
    rget r "IMAGE", rget r "LINK_DO_OBRAZU"]

/-- `zdanie_en = r.get('ZDANIE_EN') or r.get('ZDANIE en') or r.get('EN_SENTENCE') or ''`. -/
def zdanie_en_of (r : RawRow) : Option String :=
  pyOr [rget r "ZDANIE_EN", rget r "ZDANIE en", rget r "EN_SENTENCE", some ""]

/-- `zdanie_es = r.get('ZDANIE_ES') or r.get('ZDANIE es') or r.get('ES_SENTENCE') or ''`. -/
def zdanie_es_of (r : RawRow) : Option String :=
  pyOr [rget r "ZDANIE_ES", rget r "ZDANIE es", rget r "ES_SENTENCE", some ""]

/-- The skip condition of `read_csv`:
`if tekst is None and tlum is None and link is None: continue`. -/
def row_empty (r : RawRow) : Bool :=
  (tekst_of r).isNone && (tlum_of r).isNone && (link_of r).isNone

/-- A normalized flashcard record as appended by `read_csv` (text fields
stripped, 1-based source row index kept). -/
structure Record where
  tekst : String
  tlum : String
  link : String
  zdanie_en : String
  zdanie_es : String
  row_index : Nat
deriving DecidableEq

/-- Python `s.strip()`: drop leading and trailing whitespace. -/
def strip (s : String) : String := s.trim

def normalize_row (i : Nat) (r : RawRow) : Record :=
  ⟨strip ((tekst_of r).getD ""), strip ((tlum_of r).getD ""), strip ((link_of r).getD ""),
   strip ((zdanie_en_of r).getD ""), strip ((zdanie_es_of r).getD ""), i⟩

/-- The row loop of `read_csv` (`enumerate(reader, start=1)` threads `i`). -/
def read_csv_go (i : Nat) : List RawRow → List Record
  | [] => []
  | r :: rs =>
    if row_empty r then read_csv_go (i + 1) rs
    else normalize_row i r :: read_csv_go (i + 1) rs

/-- Embeds `read_csv(path)` applied to the parsed rows of the file. -/
def read_csv (rows : List RawRow) : List Record := read_csv_go 1 rows

theorem read_csv_go_eq (rows : List RawRow) :
    ∀ i, read_csv_go i rows =
      ((List.enumFrom i rows).filter fun p => !row_empty p.2).map
        fun p => normalize_row p.1 p.2 := by
  induction rows with
  | nil => intro i; rfl
  | cons r rs ih =>
    intro i
    by_cases h : row_empty r
    · simp [read_csv_go, h, List.enumFrom, List.filter, ih (i + 1)]
    · simp [read_csv_go, h, List.enumFrom, List.filter, ih (i + 1)]

/-- Claim C9: `read_csv` keeps exactly the rows in which not all three primary
alias chains are absent (`row_empty` is the conjunction of the three `is None`
tests), in input order: the output is the filter-then-normalize of the rows
enumerated from 1, and consequently the surviving source row indices are
strictly increasing. -/
theorem C9_skip_exactly_empty_rows_in_order (rows : List RawRow) :
    read_csv rows =
      ((List.enumFrom 1 rows).filter fun p => !row_empty p.2).map
        (fun p => normalize_row p.1 p.2) ∧
    (∀ r : RawRow, row_empty r = true ↔
      (tekst_of r = none ∧ tlum_of r = none ∧ link_of r = none)) ∧
    List.Pairwise (· < ·) ((read_csv rows).map Record.row_index) := by
  refine ⟨read_csv_go_eq rows 1, ?_, ?_⟩
  · intro r
    rw [row_empty]
    rcases tekst_of r with _ | t <;> rcases tlum_of r with _ | u <;>
      rcases link_of r with _ | v <;> simp
  · rw [read_csv, read_csv_go_eq rows 1, List.map_map]
    have hmm : (Record.row_index ∘ fun p : Nat × RawRow => normalize_row p.1 p.2) =
        Prod.fst := by
      funext p
      rfl
    rw [hmm]
    have hfst : (List.enumFrom 1 rows).map Prod.fst = List.range' 1 rows.length := by
      simp [List.enumFrom_map_fst 1 rows]
    have h1 : List.Pairwise (· < ·) ((List.enumFrom 1 rows).map Prod.fst) := by
      rw [hfst]
      exact List.pairwise_lt_range' 1 rows.length 1 (by omega)
    have h0 := List.pairwise_map.mp h1
    exact List.pairwise_map.mpr
      (h0.sublist (List.filter_sublist (List.enumFrom 1 rows)))

/- The command-line entry point. `argv` is the full `sys.argv` (the script
name first); the filesystem answer to `os.path.exists` and the parsed content
of the input file are part of the environment. -/

structure CliEnv where
  argv : List String
  input_exists : String → Bool
  csv_rows : List RawRow

/-- Observable outcome of a run of `main`: the process exit code (0 on normal
return), everything printed, and the document written by `generate_pdf`
(output path, card count, page count), if any. -/
structure MainResult where
  exit_code : Nat
  stdout : List String
  saved : Option (String × Nat × Nat)
deriving DecidableEq

def usage_message : String :=
  "Użycie: python fiszki_pdf_generator.py input.csv output.pdf"

/-- `print(f'Zapisano {out_path} ({total} fiszek, {pages} stron)')` at the end
of `generate_pdf`. -/
def summary_message (out_path : String) (total pages : Nat) : String :=
  "Zapisano " ++ out_path ++ " (" ++ toString total ++ " fiszek, " ++
    toString pages ++ " stron)"

/-- `in_csv = sys.argv[1]`. -/
def argv1 (env : CliEnv) : String := env.argv.getD 1 ""

/-- `out_pdf = sys.argv[2]`. -/
def argv2 (env : CliEnv) : String := env.argv.getD 2 ""

/-- Embeds `main()`: usage check (`len(sys.argv) < 3`), input existence check,
empty-input check (`if not rows`), then `generate_pdf` which writes the
document and prints the summary. -/
def main (env : CliEnv) : MainResult :=
  if env.argv.length < 3 then ⟨1, [usage_message], none⟩
  else if !env.input_exists (argv1 env) then
    ⟨1, ["Plik wejściowy nie istnieje: " ++ argv1 env], none⟩
  else if read_csv env.csv_rows = [] then
    ⟨1, ["Brak wierszy do przetworzenia"], none⟩
  else
    ⟨0, [summary_message (argv2 env) (read_csv env.csv_rows).length
        (page_count (read_csv env.csv_rows).length)],
     some (argv2 env, (read_csv env.csv_rows).length,
       page_count (read_csv env.csv_rows).length)⟩

def env0 : CliEnv :=
  ⟨["fiszki_pdf_generator.py", "input.csv", "output.pdf"],
   fun _ => true, [[("TEKST", some "dog")]]⟩

/-- Counterexample to C8 as stated: on a successful run the program prints the
Polish summary `Zapisano … fiszek, … stron`, not the literal
`Saved <path> (<N> cards, <P> pages)` that the claim quotes. -/
theorem C8_counterexample :
    (main env0).exit_code = 0 ∧
    (main env0).stdout ≠ ["Saved output.pdf (1 cards, 1 pages)"] := by
  constructor
  · rfl
  · decide

/-- Claim C8 (amended): the CLI exits non-zero, printing a user-facing message
and writing no document, in exactly three cases — fewer than 2 user arguments
(`len(sys.argv) < 3`), nonexistent input path, zero usable records — and
otherwise exits 0 after writing the document and printing the summary
`Zapisano <path> (<N> fiszek, <P> stron)` (the code's Polish wording of
`Saved <path> (<N> cards, <P> pages)`), with `N` the record count and `P`
the page count. -/
theorem C8_cli_exit_behavior (env : CliEnv) :
    ((main env).exit_code ≠ 0 ↔
      (env.argv.length < 3 ∨ env.input_exists (argv1 env) = false ∨
        read_csv env.csv_rows = [])) ∧
    ((main env).exit_code ≠ 0 → (main env).saved = none ∧ (main env).stdout ≠ []) ∧
    ((main env).exit_code = 0 →
      (main env).stdout = [summary_message (argv2 env)
        (read_csv env.csv_rows).length (page_count (read_csv env.csv_rows).length)] ∧
      (main env).saved = some (argv2 env,
        (read_csv env.csv_rows).length, page_count (read_csv env.csv_rows).length)) := by
  by_cases h1 : env.argv.length < 3
  · simp [main, h1]
  · cases hx : env.input_exists (argv1 env) with
    | false => simp [main, h1, hx]
    | true =>
      by_cases h3 : read_csv env.csv_rows = []
      · simp [main, h1, hx, h3]
      · simp [main, h1, hx, h3]

/-- Witness for the amended C8: on the concrete successful run the exit code
is 0 and the printed line is the Polish summary for 1 card and 1 page. -/
theorem C8_witness :
    (main env0).stdout = [summary_message (argv2 env0)
      (read_csv env0.csv_rows).length (page_count (read_csv env0.csv_rows).length)] :=
  ((C8_cli_exit_behavior env0).2.2 rfl).1

end Fiszki
